import Mathlib

/-!
Verification of the badwolf triple / semantic core.

The Go source under verification is `triple/triple.go` (the Object/Triple
data model, the line parser and reification) and the `semantic` package
(Statement / GraphClause, clause ordering).  The external packages
`triple/node`, `triple/predicate` and `triple/literal` are not part of the
sources, so their data and canonical text forms are modelled from the
specification (each such definition carries a `Modelled from the spec:`
doc comment).  Go strings are modelled as `List Char`, Go `nil` pointers
as `Option`, Go `error` returns as `Except TErr`, and a Go runtime panic
as the `GoRes.crash` outcome.
-/

namespace Badwolf

/-- Errors returned by the modelled functions.  Go errors are formatted
strings; each constructor mirrors one `fmt.Errorf` site and carries the
dynamic data interpolated into the message. -/
inductive TErr : Type
  /-- error of `node.Parse` on the given input -/
  | nodeErr (s : List Char)
  /-- error of `predicate.Parse` on the given input -/
  | predErr (s : List Char)
  /-- error of the default literal builder on the given input -/
  | litErr (s : List Char)
  /-- `triple.Literal does not box a node in %s` -/
  | noNode (s : List Char)
  /-- `triple.Literal does not box a predicate in %s` -/
  | noPred (s : List Char)
  /-- `triple.Literal does not box a literal in %s` -/
  | noLit (s : List Char)
  /-- `triple.NewTriple cannot create triples from nil components` -/
  | nilComponent
  /-- `triple.Parse could not split s p o  out of %s` -/
  | splitErr (line : List Char)
  /-- `triple.Parse failed to parse subject %s with error %v` -/
  | subjectErr (s : List Char) (e : TErr)
  /-- `triple.Parse failed to parse predicate %s with error %v` -/
  | predicateErr (s : List Char) (e : TErr)
  /-- `triple.Parse failed to parse object %s with error %v` -/
  | objectErr (s : List Char) (e : TErr)
deriving DecidableEq, Repr

/-- Modelled from the spec: a node is an opaque entity identifier with a
canonical string form `/type<id>`; equality is value equality on that
form, hence on the `(typ, id)` pair. -/
structure Node where
  typ : List Char
  id : List Char
deriving DecidableEq, Repr

/-- Canonical string form of a node: `/type<id>`. -/
def Node.string (n : Node) : List Char :=
  '/' :: (n.typ ++ '<' :: (n.id ++ ['>']))

/-- Modelled from the spec: a predicate is a relation identifier with an
ID and a type tag Immutable / Temporal; a Temporal predicate carries a
time anchor (an instant, represented here by its canonical timestamp
text). -/
inductive Pred : Type
  | immutable (id : List Char)
  | temporal (id : List Char) (ta : List Char)
deriving DecidableEq, Repr

/-- The ID of a predicate (`Predicate.ID`). -/
def Pred.pid : Pred → List Char
  | .immutable id => id
  | .temporal id _ => id

/-- Canonical string form of a predicate: `"id"@[]` for an immutable
predicate, `"id"@[anchor]` for a temporal one. -/
def Pred.string : Pred → List Char
  | .immutable id => '"' :: (id ++ ['"', '@', '[', ']'])
  | .temporal id ta => '"' :: (id ++ ['"', '@', '['] ++ ta ++ [']'])

/-- Modelled from the spec: the predicate constructors `NewImmutable` and
`NewTemporal`; the spec names no failure condition for them, so they
always succeed. -/
def newImmutable (id : List Char) : Except TErr Pred :=
  .ok (.immutable id)

/-- Modelled from the spec: see `newImmutable`. -/
def newTemporal (id : List Char) (ta : List Char) : Except TErr Pred :=
  .ok (.temporal id ta)

/-- Modelled from the spec: a literal is a typed value with a canonical
string form `"text"^^type:T`. -/
structure Lit where
  ty : List Char
  text : List Char
deriving DecidableEq, Repr

/-- Canonical string form of a literal: `"text"^^type:T`. -/
def Lit.string (l : Lit) : List Char :=
  '"' :: (l.text ++ ['"', '^', '^', 't', 'y', 'p', 'e', ':'] ++ l.ty)

/-- `Object` is the box that either contains a literal or a node
(three possibly-nil pointer fields, as in the source). -/
structure Object where
  n : Option Node
  p : Option Pred
  l : Option Lit
deriving DecidableEq, Repr

/-- The sentinel printed for an object holding no variant. -/
def invalidObjectChars : List Char :=
  "@@@INVALID_OBJECT@@@".toList

/-- `Object.String`: dispatch to whichever variant is present (checked in
the source order n, l, p), sentinel otherwise. -/
def Object.string (o : Object) : List Char :=
  match o.n with
  | some n => n.string
  | none =>
    match o.l with
    | some l => l.string
    | none =>
      match o.p with
      | some p => p.string
      | none => invalidObjectChars

/-- `NewNodeObject` returns a new object that boxes a node. -/
def newNodeObject (n : Node) : Object :=
  ⟨some n, none, none⟩

/-- `NewPredicateObject` returns a new object that boxes a predicate. -/
def newPredicateObject (p : Pred) : Object :=
  ⟨none, some p, none⟩

/-- `NewLiteralObject` returns a new object that boxes a literal. -/
def newLiteralObject (l : Lit) : Object :=
  ⟨none, none, some l⟩

/-- `Object.Node`: attempts to return the boxed node. -/
def Object.node (o : Object) : Except TErr Node :=
  match o.n with
  | none => .error (.noNode o.string)
  | some n => .ok n

/-- `Object.Predicate`: attempts to return the boxed predicate. -/
def Object.predicate (o : Object) : Except TErr Pred :=
  match o.p with
  | none => .error (.noPred o.string)
  | some p => .ok p

/-- `Object.Literal`: attempts to return the boxed literal. -/
def Object.literal (o : Object) : Except TErr Lit :=
  match o.l with
  | none => .error (.noLit o.string)
  | some l => .ok l

/-- Well-formedness of an object: exactly one of the three variant fields
is present (the run-time invariant every constructor establishes). -/
def objectWF (o : Object) : Bool :=
  (o.n.isSome && o.p.isNone && o.l.isNone) ||
  (o.n.isNone && o.p.isSome && o.l.isNone) ||
  (o.n.isNone && o.p.isNone && o.l.isSome)

/-- `Triple` is the `<subject predicate object>` aggregate.  `NewTriple`
is the only constructor used by the code and it rejects nil components,
so the fields here are the values themselves. -/
structure Triple where
  s : Node
  p : Pred
  o : Object
deriving DecidableEq, Repr

/-- `NewTriple` creates a new triple; it fails when any component is nil. -/
def newTriple (s : Option Node) (p : Option Pred) (o : Option Object) :
    Except TErr Triple :=
  match s, p, o with
  | some s, some p, some o => .ok ⟨s, p, o⟩
  | _, _, _ => .error .nilComponent

/-- `Triple.String`: the tab-joined `S P O` form. -/
def Triple.string (t : Triple) : List Char :=
  t.s.string ++ '\t' :: (t.p.string ++ '\t' :: t.o.string)

/-! ### base64 and UTF-8, for the GUID functions -/

/-- The standard base64 alphabet. -/
def b64Alphabet : List Char :=
  "ABCDEFGHIJKLMNOPQRSTUVWXYZabcdefghijklmnopqrstuvwxyz0123456789+/".toList

/-- The character for a 6-bit group. -/
def b64Char (n : Nat) : Char :=
  b64Alphabet.getD n 'A'

/-- `base64.StdEncoding.EncodeToString` over a byte list: 3-byte groups
become 4 alphabet characters, with `=` padding for a short final group. -/
def base64EncodeToString : List Nat → List Char
  | [] => []
  | [a] => [b64Char (a / 4), b64Char (a % 4 * 16), '=', '=']
  | [a, b] => [b64Char (a / 4), b64Char (a % 4 * 16 + b / 16),
               b64Char (b % 16 * 4), '=']
  | a :: b :: c :: rest =>
    b64Char (a / 4) :: b64Char (a % 4 * 16 + b / 16) ::
    b64Char (b % 16 * 4 + c / 64) :: b64Char (c % 64) ::
    base64EncodeToString rest

/-- UTF-8 encoding of one Unicode scalar value. -/
def utf8EncodeChar (ch : Char) : List Nat :=
  let n := ch.toNat
  if n < 0x80 then [n]
  else if n < 0x800 then [0xC0 + n / 64, 0x80 + n % 64]
  else if n < 0x10000 then
    [0xE0 + n / 4096, 0x80 + n / 64 % 64, 0x80 + n % 64]
  else
    [0xF0 + n / 262144, 0x80 + n / 4096 % 64, 0x80 + n / 64 % 64,
     0x80 + n % 64]

/-- The UTF-8 bytes of a string. -/
def utf8Bytes (s : List Char) : List Nat :=
  (s.map utf8EncodeChar).flatten

/-- `Object.GUID`: base64 of `"<tag>:<String()>"`, with the tag computed
by the source's if-chain over the fields n, l, p (later checks win). -/
def Object.guid (o : Object) : List Char :=
  let fo := invalidObjectChars
  let fo := if o.n.isSome then "node".toList else fo
  let fo := if o.l.isSome then "literal".toList else fo
  let fo := if o.p.isSome then "predicate".toList else fo
  base64EncodeToString (utf8Bytes (fo ++ ':' :: o.string))

/-- `Triple.GUID`: base64 of the stringified triple. -/
def Triple.guid (t : Triple) : List Char :=
  base64EncodeToString (utf8Bytes t.string)

/-- Follows the spec's words (C7): the variant tag is `node`, `literal`
or `predicate` according to the variant held. -/
def variantTag (o : Object) : List Char :=
  match o.n, o.l, o.p with
  | some _, _, _ => "node".toList
  | none, some _, _ => "literal".toList
  | none, none, some _ => "predicate".toList
  | none, none, none => invalidObjectChars

/-- Follows the spec's words (C7): the object GUID is the standard-alphabet
base64 encoding of the UTF-8 bytes of `"<tag>:<String()>"`. -/
def objectGUIDSpec (o : Object) : List Char :=
  base64EncodeToString (utf8Bytes (variantTag o ++ ':' :: o.string))

/-! ### Parsing -/

/-- The whitespace class `\s` of the RE2 syntax used by Go's `regexp`:
`[\t\n\f\r ]`. -/
def isRegexSpace (c : Char) : Bool :=
  c = ' ' || c = '\t' || c = '\n' || c = '\x0c' || c = '\r'

/-- Go's `unicode.IsSpace`, used by `strings.TrimSpace`. -/
def isUnicodeSpace (c : Char) : Bool :=
  c = '\t' || c = '\n' || c = '\x0b' || c = '\x0c' || c = '\r' || c = ' ' ||
  c = '\x85' || c = '\xa0' || c.toNat = 0x1680 ||
  (0x2000 ≤ c.toNat && c.toNat ≤ 0x200a) ||
  c.toNat = 0x2028 || c.toNat = 0x2029 || c.toNat = 0x202f ||
  c.toNat = 0x205f || c.toNat = 0x3000

/-- `strings.TrimSpace`. -/
def trimSpace (l : List Char) : List Char :=
  ((l.dropWhile isUnicodeSpace).reverse.dropWhile isUnicodeSpace).reverse

/-- Match of the compiled pattern `>\s+"` at the head of the input,
returning the match length.  Since `"` is not in `\s`, the greedy `\s+`
is equivalent to taking the maximal whitespace run. -/
def matchP (l : List Char) : Option Nat :=
  match l with
  | [] => none
  | c :: rest =>
    if c = '>' then
      let ws := (rest.takeWhile isRegexSpace).length
      if ws = 0 then none
      else
        match rest.dropWhile isRegexSpace with
        | '"' :: _ => some (ws + 2)
        | _ => none
    else none

/-- Match of the compiled pattern `(]\s+/)|(]\s+")` at the head of the
input, returning the match length. -/
def matchO (l : List Char) : Option Nat :=
  match l with
  | [] => none
  | c :: rest =>
    if c = ']' then
      let ws := (rest.takeWhile isRegexSpace).length
      if ws = 0 then none
      else
        match rest.dropWhile isRegexSpace with
        | '/' :: _ => some (ws + 2)
        | '"' :: _ => some (ws + 2)
        | _ => none
    else none

/-- Leftmost match search (`Regexp.FindIndex`): try the matcher at every
position left to right; `i` is the index of the current suffix. -/
def scanFindAux (m : List Char → Option Nat) (i : Nat) :
    List Char → Option (Nat × Nat)
  | [] => none
  | c :: rest =>
    match m (c :: rest) with
    | some k => some (i, i + k)
    | none => scanFindAux m (i + 1) rest

/-- `FindIndex`: the `[start, end)` interval of the leftmost match. -/
def scanFind (m : List Char → Option Nat) (l : List Char) :
    Option (Nat × Nat) :=
  scanFindAux m 0 l

/-- Split a list at the first occurrence of `c`: the prefix before it and
the suffix starting with it. -/
def breakAt (c : Char) (l : List Char) : List Char × List Char :=
  (l.takeWhile (· != c), l.dropWhile (· != c))

/-- Modelled from the spec: `node.Parse` reads the canonical node text
`/type<id>`. -/
def nodeParse (s : List Char) : Except TErr Node :=
  match s with
  | '/' :: rest =>
    match breakAt '<' rest with
    | (ty, '<' :: rest2) =>
      match breakAt '>' rest2 with
      | (id, ['>']) => .ok ⟨ty, id⟩
      | _ => .error (.nodeErr s)
    | _ => .error (.nodeErr s)
  | _ => .error (.nodeErr s)

/-- Modelled from the spec: `predicate.Parse` reads the canonical
predicate text `"id"@[anchor]`; an empty anchor yields an immutable
predicate, a nonempty one a temporal predicate with that anchor. -/
def predParse (s : List Char) : Except TErr Pred :=
  match s with
  | '"' :: rest =>
    match breakAt '"' rest with
    | (id, '"' :: '@' :: '[' :: rest2) =>
      match breakAt ']' rest2 with
      | (ta, [']']) =>
        if ta.isEmpty then .ok (.immutable id) else .ok (.temporal id ta)
      | _ => .error (.predErr s)
    | _ => .error (.predErr s)
  | _ => .error (.predErr s)

/-- A literal builder: the parsing capability handed to `ParseObject` /
`ParseTriple`. -/
def Builder : Type :=
  List Char → Except TErr Lit

/-- Modelled from the spec: the default literal builder reads the
canonical literal text `"text"^^type:T` with a nonempty type name. -/
def litParse (s : List Char) : Except TErr Lit :=
  match s with
  | '"' :: rest =>
    match breakAt '"' rest with
    | (tx, '"' :: '^' :: '^' :: 't' :: 'y' :: 'p' :: 'e' :: ':' :: rest2) =>
      if rest2.isEmpty then .error (.litErr s) else .ok ⟨rest2, tx⟩
    | _ => .error (.litErr s)
  | _ => .error (.litErr s)

/-- `ParseObject`: try node, then literal via the supplied builder, then
predicate; the first success wins, and when everything fails the
predicate parser's error is returned. -/
def parseObject (s : List Char) (b : Builder) : Except TErr Object :=
  match nodeParse s with
  | .ok n => .ok (newNodeObject n)
  | .error _ =>
    match b s with
    | .ok l => .ok (newLiteralObject l)
    | .error _ =>
      match predParse s with
      | .ok p => .ok (newPredicateObject p)
      | .error e => .error e

/-- Outcome of a Go function that can also panic at runtime. -/
inductive GoRes (α : Type) : Type
  | crash
  | fails (e : TErr)
  | ok (a : α)
deriving DecidableEq, Repr

/-- Go slice expression `l[a:b]`; `none` models the runtime panic when
the bounds are out of range. -/
def goSlice (l : List Char) (a b : Nat) : Option (List Char) :=
  if a ≤ b ∧ b ≤ l.length then some ((l.drop a).take (b - a)) else none

/-- Go slice expression `l[a:]`. -/
def goSliceFrom (l : List Char) (a : Nat) : Option (List Char) :=
  if a ≤ l.length then some (l.drop a) else none

/-- `ParseTriple`: trim the line, locate the two split points with the
precompiled patterns, slice out the three substrings and hand them to the
node, predicate and object parsers. -/
def parseTriple (line : List Char) (b : Builder) : GoRes Triple :=
  let raw := trimSpace line
  match scanFind matchP raw, scanFind matchO raw with
  | some idxp, some idxo =>
    match goSlice raw 0 (idxp.1 + 1), goSlice raw (idxp.2 - 1) (idxo.1 + 1),
        goSliceFrom raw (idxo.2 - 1) with
    | some ss, some sp, some so =>
      match nodeParse ss with
      | .error e => .fails (.subjectErr ss e)
      | .ok s =>
        match predParse sp with
        | .error e => .fails (.predicateErr sp e)
        | .ok p =>
          match parseObject so b with
          | .error e => .fails (.objectErr so e)
          | .ok o =>
            match newTriple (some s) (some p) (some o) with
            | .error e => .fails e
            | .ok t => .ok t
    | _, _, _ => .crash
  | _, _ => .fails (.splitErr raw)

/-! ### Reification -/

/-- The helper `rp` inside `Reify` that creates the reification
predicates: for a Temporal input it builds `NewTemporal(string(p.ID()),
*ta)` (the `id` argument is not consulted); for an Immutable input it
builds `NewImmutable(id)`. -/
def rp (id : List Char) (p : Pred) : Except TErr Pred :=
  match p with
  | .temporal pid ta => newTemporal pid ta
  | .immutable _ => newImmutable id

/-- `Triple.Reify`.  `node.NewBlankNode` allocates a fresh anonymous
node; the allocation is modelled by passing the fresh node `b`
explicitly.  The source's `var to *Triple` with its three sequential
overwriting `if` blocks is modelled by the `to*` chain; `ts, _ :=
NewTriple(...)` discards the error, hence `Except.toOption`.  The
diagnostic `fmt.Println` in the source is a side effect with no bearing
on the returned value and is not modelled. -/
def Triple.reify (t : Triple) (b : Node) :
    Except TErr (List (Option Triple) × Node) :=
  match rp "_subject".toList t.p with
  | .error e => .error e
  | .ok s =>
    let ts := (newTriple (some b) (some s) (some (newNodeObject t.s))).toOption
    match rp "_predicate".toList t.p with
    | .error e => .error e
    | .ok p =>
      let tp :=
        (newTriple (some b) (some p) (some (newPredicateObject t.p))).toOption
      let step1 : Except TErr (Option Triple) :=
        match t.o.l with
        | some l =>
          match rp "_object".toList t.p with
          | .error e => .error e
          | .ok o =>
            .ok (newTriple (some b) (some o) (some (newLiteralObject l))).toOption
        | none => .ok none
      match step1 with
      | .error e => .error e
      | .ok to1 =>
        let step2 : Except TErr (Option Triple) :=
          match t.o.n with
          | some n =>
            match rp "_object".toList t.p with
            | .error e => .error e
            | .ok o =>
              .ok (newTriple (some b) (some o) (some (newNodeObject n))).toOption
          | none => .ok to1
        match step2 with
        | .error e => .error e
        | .ok to2 =>
          let step3 : Except TErr (Option Triple) :=
            match t.o.p with
            | some pp =>
              match rp "_object".toList t.p with
              | .error e => .error e
              | .ok o =>
                .ok (newTriple (some b) (some o)
                      (some (newPredicateObject pp))).toOption
            | none => .ok to2
          match step3 with
          | .error e => .error e
          | .ok to3 => .ok ([some t, ts, tp, to3], b)

/-! ### The semantic package: Statement and GraphClause -/

/-- `StatementType` describes the type of statement being represented. -/
inductive StatementType : Type
  | query
  | insertStmt
  | deleteStmt
  | create
  | drop
deriving DecidableEq, Repr

/-- `GraphClause` represents a clause of a graph pattern in a where
clause.  `*time.Time` bounds are modelled as optional instants
(`Option Int`), string fields as `List Char`. -/
structure GraphClause where
  S : Option Node := none
  SBinding : List Char := []
  SAlias : List Char := []
  STypeAlias : List Char := []
  SIDAlias : List Char := []
  P : Option Pred := none
  PAlias : List Char := []
  PID : List Char := []
  PAnchorBinding : List Char := []
  PBinding : List Char := []
  PLowerBound : Option Int := none
  PUpperBound : Option Int := none
  PLowerBoundAlias : List Char := []
  PUpperBoundAlias : List Char := []
  PIDAlias : List Char := []
  PAnchorAlias : List Char := []
  O : Option Object := none
  OBinding : List Char := []
  OID : List Char := []
  OAlias : List Char := []
  OTypeAlias : List Char := []
  OIDAlias : List Char := []
  OAnchorAlias : List Char := []
  OAnchorBinding : List Char := []
  OLowerBound : Option Int := none
  OUpperBound : Option Int := none
  OLowerBoundAlias : List Char := []
  OUpperBoundAlias : List Char := []
deriving DecidableEq, Repr

/-- `GraphClause.Specificity`: the count of non-nil S, P, O values. -/
def GraphClause.specificity (c : GraphClause) : Nat :=
  (if c.S.isSome then 1 else 0) + (if c.P.isSome then 1 else 0) +
    (if c.O.isSome then 1 else 0)

/-- `Statement` contains the semantic information extracted from the
parsing.  Go's `*GraphClause` pointers are modelled with an explicit
allocation arena: `heap` holds every clause ever allocated, and
`pattern` / `workingClause` store indices into it, so pointer sharing
and in-place mutation are represented faithfully. -/
structure Statement where
  sType : StatementType := .query
  graphs : List (List Char) := []
  data : List Triple := []
  heap : List GraphClause := [{}]
  pattern : List Nat := []
  workingClause : Nat := 0
deriving DecidableEq, Repr

/-- The clause a heap index points at. -/
def Statement.clauseAt (s : Statement) (i : Nat) : GraphClause :=
  s.heap.getD i {}

/-- `Statement.GraphPatternClauses` (as heap indices). -/
def Statement.graphPatternClauses (s : Statement) : List Nat :=
  s.pattern

/-- `Statement.ResetWorkingGraphClause`: point the working clause at a
freshly allocated empty clause (`&GraphClause{}`). -/
def Statement.resetWorkingGraphClause (s : Statement) : Statement :=
  { s with heap := s.heap ++ [{}], workingClause := s.heap.length }

/-- `Statement.AddWorkingGrpahClause` (source spelling): append the
working clause to the pattern, then reset the working clause. -/
def Statement.addWorkingGrpahClause (s : Statement) : Statement :=
  Statement.resetWorkingGraphClause { s with pattern := s.pattern ++ [s.workingClause] }

/-- Mutation of the current working clause through the handle returned
by `Statement.WorkingClause` (in Go, writes through the pointer). -/
def Statement.mutateWorking (s : Statement) (f : GraphClause → GraphClause) :
    Statement :=
  { s with heap := s.heap.set s.workingClause (f (s.clauseAt s.workingClause)) }

/-- All clause references of a statement are live heap indices. -/
def Statement.inv (s : Statement) : Prop :=
  (∀ i ∈ s.pattern, i < s.heap.length) ∧ s.workingClause < s.heap.length

/-- Specificity of the clause at a heap index. -/
def Statement.specAt (s : Statement) (i : Nat) : Nat :=
  (s.clauseAt i).specificity

/-- `Statement.SortedGraphPatternClauses`: sort the pattern with
`sort.Sort(bySpecificity(ptrns))` — the comparison `Less(i, j)` is
`Specificity(i) > Specificity(j)`, and the sort reorders the shared
backing array in place, so the statement's own pattern is reordered too.
Go's unstable comparison sort is modelled by insertion sort over the
same ordering: any correct `sort.Sort` returns some Less-sorted
permutation, and ties carry no guarantee either way. -/
def Statement.sortedGraphPatternClauses (s : Statement) :
    List Nat × Statement :=
  let ptrns := List.insertionSort (fun i j => s.specAt j ≤ s.specAt i) s.pattern
  (ptrns, { s with pattern := ptrns })

/-! ### Shared example values -/

/-- Example node `/u<a>`. -/
def exNodeA : Node := ⟨"u".toList, "a".toList⟩

/-- Example node `/u<b>`. -/
def exNodeB : Node := ⟨"u".toList, "b".toList⟩

/-- Example blank node. -/
def exBlank : Node := ⟨"_".toList, "uuid".toList⟩

/-- Example temporal predicate `"met"@[2015]`. -/
def exPredT : Pred := .temporal "met".toList "2015".toList

/-- Example immutable predicate `"knows"@[]`. -/
def exPredI : Pred := .immutable "knows".toList

/-- Example literal `"v"^^type:text`. -/
def exLit : Lit := ⟨"text".toList, "v".toList⟩

/-! ### Theorems -/

/-- Whether an accessor call succeeded. -/
def isOkE {α : Type} : Except TErr α → Bool
  | .ok _ => true
  | .error _ => false

/-- C6: every object produced by one of the three constructors has
exactly one succeeding accessor — the one matching the constructor —
and the other two accessors return the type-mismatch errors. -/
theorem c6_variant_exclusivity (o : Object)
    (h : (∃ n, o = newNodeObject n) ∨ (∃ p, o = newPredicateObject p) ∨
         (∃ l, o = newLiteralObject l)) :
    (isOkE o.node).toNat + (isOkE o.predicate).toNat +
        (isOkE o.literal).toNat = 1 ∧
      (∀ n, o = newNodeObject n →
        o.node = .ok n ∧ o.predicate = .error (.noPred o.string) ∧
          o.literal = .error (.noLit o.string)) ∧
      (∀ p, o = newPredicateObject p →
        o.predicate = .ok p ∧ o.node = .error (.noNode o.string) ∧
          o.literal = .error (.noLit o.string)) ∧
      (∀ l, o = newLiteralObject l →
        o.literal = .ok l ∧ o.node = .error (.noNode o.string) ∧
          o.predicate = .error (.noPred o.string)) := by
  rcases h with ⟨n, rfl⟩ | ⟨p, rfl⟩ | ⟨l, rfl⟩ <;>
    simp [newNodeObject, newPredicateObject, newLiteralObject, Object.node,
      Object.predicate, Object.literal, isOkE]

/-- Witness for C6 at the concrete node object over `/u<a>`. -/
theorem c6_variant_exclusivity_witness :
    (newNodeObject exNodeA).node = .ok exNodeA ∧
      (newNodeObject exNodeA).predicate =
        .error (.noPred (newNodeObject exNodeA).string) ∧
      (newNodeObject exNodeA).literal =
        .error (.noLit (newNodeObject exNodeA).string) :=
  (c6_variant_exclusivity (newNodeObject exNodeA)
    (Or.inl ⟨exNodeA, rfl⟩)).2.1 exNodeA rfl

/-- For a well-formed object the source's tag chain agrees with the
spec's variant tag, so the two GUID formulations coincide. -/
theorem guid_eq_spec (o : Object) (ho : objectWF o = true) :
    o.guid = objectGUIDSpec o := by
  obtain ⟨n, p, l⟩ := o
  cases n <;> cases p <;> cases l <;>
    simp_all [objectWF, Object.guid, objectGUIDSpec, variantTag]

/-- C7: for a well-formed object the GUID is the standard base64 of the
UTF-8 bytes of `"<tag>:<String()>"`, the triple GUID is the base64 of
the UTF-8 bytes of the tab-joined component strings, and two well-formed
objects with the same variant tag and string form have the same GUID. -/
theorem c7_guid_encoding (o : Object) (t : Triple) (ho : objectWF o = true) :
    o.guid = objectGUIDSpec o ∧
      t.guid = base64EncodeToString
        (utf8Bytes (t.s.string ++ '\t' :: (t.p.string ++ '\t' :: t.o.string))) ∧
      (∀ o2, objectWF o2 = true → variantTag o2 = variantTag o →
        o2.string = o.string → o2.guid = o.guid) := by
  refine ⟨guid_eq_spec o ho, rfl, ?_⟩
  intro o2 h2 htag hstr
  rw [guid_eq_spec o ho, guid_eq_spec o2 h2, objectGUIDSpec, objectGUIDSpec,
    htag, hstr]

/-- Witness for C7 at the node object over `/u<a>` and a concrete
triple. -/
theorem c7_guid_encoding_witness :
    (newNodeObject exNodeA).guid = objectGUIDSpec (newNodeObject exNodeA) ∧
      (Triple.mk exNodeA exPredI (newNodeObject exNodeB)).guid =
        base64EncodeToString (utf8Bytes (exNodeA.string ++ '\t' ::
          (exPredI.string ++ '\t' :: (newNodeObject exNodeB).string))) ∧
      (∀ o2, objectWF o2 = true →
        variantTag o2 = variantTag (newNodeObject exNodeA) →
        o2.string = (newNodeObject exNodeA).string →
        o2.guid = (newNodeObject exNodeA).guid) :=
  c7_guid_encoding (newNodeObject exNodeA)
    (Triple.mk exNodeA exPredI (newNodeObject exNodeB)) (by decide)

/-- C1: at a concrete triple whose predicate is Temporal (`"met"@[2015]`),
`Reify` builds every role predicate as `NewTemporal(string(p.ID()), *ta)`,
ignoring the `_subject`/`_predicate`/`_object` suffix argument: the three
role predicates are identical to the original predicate, with an
unsuffixed ID, instead of carrying the role suffixes. -/
theorem c1_temporal_role_predicates_unsuffixed :
    (Triple.mk exNodeA exPredT (newNodeObject exNodeB)).reify exBlank =
      .ok ([some (Triple.mk exNodeA exPredT (newNodeObject exNodeB)),
            some (Triple.mk exBlank exPredT (newNodeObject exNodeA)),
            some (Triple.mk exBlank exPredT (newPredicateObject exPredT)),
            some (Triple.mk exBlank exPredT (newNodeObject exNodeB))],
           exBlank) := by
  rfl

/-- C2: for a triple with a well-formed object, `Reify` returns exactly
4 triples and the fresh blank node; the first triple is the original,
and the other three have the blank node as subject and carry `t.S` as a
node object, `t.P` as a predicate object, and `t.O` unchanged. -/
theorem c2_reify_shape (t : Triple) (b : Node) (h : objectWF t.o = true) :
    ∃ q1 q2 q3, t.reify b =
      .ok ([some t,
            some (Triple.mk b q1 (newNodeObject t.s)),
            some (Triple.mk b q2 (newPredicateObject t.p)),
            some (Triple.mk b q3 t.o)], b) := by
  obtain ⟨s, p, o⟩ := t
  obtain ⟨n, op, l⟩ := o
  cases n <;> cases op <;> cases l <;> simp [objectWF] at h <;>
    cases p <;> exact ⟨_, _, _, rfl⟩

/-- The insertion-sort model of `sort.Sort(bySpecificity(...))` yields a
sequence that is non-increasing in specificity. -/
theorem sortedPattern_sorted (s : Statement) :
    List.Sorted (fun i j => s.specAt j ≤ s.specAt i)
      (List.insertionSort (fun i j => s.specAt j ≤ s.specAt i) s.pattern) := by
  haveI : IsTotal Nat (fun i j => s.specAt j ≤ s.specAt i) :=
    ⟨fun a b => le_total _ _⟩
  haveI : IsTrans Nat (fun i j => s.specAt j ≤ s.specAt i) :=
    ⟨fun a b c h1 h2 => le_trans h2 h1⟩
  exact List.sorted_insertionSort _ _

/-- C8: for every statement, the sequence returned by
`SortedGraphPatternClauses` is non-increasing in `Specificity`. -/
theorem c8_sorted_specificity (s : Statement) :
    List.Sorted (fun i j => s.specAt j ≤ s.specAt i)
      s.sortedGraphPatternClauses.1 := by
  simpa [Statement.sortedGraphPatternClauses] using sortedPattern_sorted s

/-- C10: `SortedGraphPatternClauses` reorders the committed pattern in
place: afterwards `GraphPatternClauses` returns exactly the sorted
sequence — a permutation of the original pattern, non-increasing in
specificity — while the clauses themselves are unchanged. -/
theorem c10_sort_in_place (s : Statement) :
    s.sortedGraphPatternClauses.2.graphPatternClauses =
        s.sortedGraphPatternClauses.1 ∧
      s.sortedGraphPatternClauses.1.Perm s.graphPatternClauses ∧
      List.Sorted (fun i j => s.specAt j ≤ s.specAt i)
        s.sortedGraphPatternClauses.2.graphPatternClauses ∧
      ∀ i, s.sortedGraphPatternClauses.2.clauseAt i = s.clauseAt i := by
  refine ⟨rfl, ?_, ?_, fun i => rfl⟩
  · exact List.perm_insertionSort _ _
  · simpa [Statement.sortedGraphPatternClauses, Statement.graphPatternClauses]
      using sortedPattern_sorted s

/-- C9: once the working clause is committed
(`AddWorkingGrpahClause`), mutating the new working clause leaves every
committed clause unchanged, because the reset points the working clause
at a freshly allocated cell. -/
theorem c9_commit_isolation (s : Statement) (hinv : s.inv)
    (f : GraphClause → GraphClause) (i : Nat)
    (hi : i ∈ s.addWorkingGrpahClause.pattern) :
    (s.addWorkingGrpahClause.mutateWorking f).clauseAt i =
      s.addWorkingGrpahClause.clauseAt i := by
  obtain ⟨hpat, hwc⟩ := hinv
  have hlt : i < s.heap.length := by
    simp only [Statement.addWorkingGrpahClause, Statement.resetWorkingGraphClause,
      List.mem_append, List.mem_singleton] at hi
    rcases hi with hi | hi
    · exact hpat i hi
    · exact hi ▸ hwc
  simp only [Statement.mutateWorking, Statement.clauseAt,
    Statement.addWorkingGrpahClause, Statement.resetWorkingGraphClause]
  simp only [List.getD_eq_getElem?_getD]
  rw [List.getElem?_set_ne (by omega : s.heap.length ≠ i)]

/-- Example statement with one allocated clause. -/
def exStmt : Statement :=
  { heap := [{ S := some exNodeA }], pattern := [], workingClause := 0 }

/-- Witness for C9: committing the clause of `exStmt` and then writing a
binding into the new working clause leaves the committed clause intact. -/
theorem c9_commit_isolation_witness :
    (exStmt.addWorkingGrpahClause.mutateWorking
        (fun c => { c with SBinding := "?x".toList })).clauseAt 0 =
      exStmt.addWorkingGrpahClause.clauseAt 0 :=
  c9_commit_isolation exStmt ⟨by simp [exStmt], by simp [exStmt]⟩
    (fun c => { c with SBinding := "?x".toList }) 0 (by decide)

/-- Witness for C2 at a concrete immutable-predicate triple with a
literal object. -/
theorem c2_reify_shape_witness :
    ∃ q1 q2 q3,
      (Triple.mk exNodeA exPredI (newLiteralObject exLit)).reify exBlank =
        .ok ([some (Triple.mk exNodeA exPredI (newLiteralObject exLit)),
              some (Triple.mk exBlank q1 (newNodeObject exNodeA)),
              some (Triple.mk exBlank q2 (newPredicateObject exPredI)),
              some (Triple.mk exBlank q3 (newLiteralObject exLit))], exBlank) :=
  c2_reify_shape (Triple.mk exNodeA exPredI (newLiteralObject exLit)) exBlank
    (by decide)

/-- C4: `ParseObject` tries node, then the supplied literal builder,
then predicate, in that order; the first success determines the variant,
and when all three fail the predicate parser's error is returned. -/
theorem c4_parse_object_order (s : List Char) (b : Builder) :
    (∀ n, nodeParse s = .ok n → parseObject s b = .ok (newNodeObject n)) ∧
      ((∃ e, nodeParse s = .error e) →
        ∀ l, b s = .ok l → parseObject s b = .ok (newLiteralObject l)) ∧
      ((∃ e, nodeParse s = .error e) → (∃ e2, b s = .error e2) →
        ∀ p, predParse s = .ok p →
          parseObject s b = .ok (newPredicateObject p)) ∧
      ((∃ e, nodeParse s = .error e) → (∃ e2, b s = .error e2) →
        ∀ e3, predParse s = .error e3 → parseObject s b = .error e3) := by
  cases hn : nodeParse s <;> cases hb : b s <;> cases hp : predParse s <;>
    refine ⟨?_, ?_, ?_, ?_⟩ <;> simp_all [parseObject]

/-- Witness for C4: on `x` all three parsers fail and `ParseObject`
returns the predicate parser's error. -/
theorem c4_parse_object_order_witness :
    parseObject "x".toList litParse = .error (.predErr "x".toList) :=
  (c4_parse_object_order "x".toList litParse).2.2.2 ⟨_, rfl⟩ ⟨_, rfl⟩ _ rfl

/-- C5 (amended): when either split pattern finds no match in the
trimmed line, `ParseTriple` returns the split error naming that line. -/
theorem c5_split_error_on_no_match (line : List Char) (b : Builder)
    (h : scanFind matchP (trimSpace line) = none ∨
         scanFind matchO (trimSpace line) = none) :
    parseTriple line b = .fails (.splitErr (trimSpace line)) := by
  rcases h with h | h
  · simp [parseTriple, h]
  · cases hp : scanFind matchP (trimSpace line) <;> simp [parseTriple, h, hp]

/-- Witness for C5: a line with no occurrence of either pattern yields
the split error. -/
theorem c5_split_error_on_no_match_witness :
    parseTriple "junk".toList litParse =
      .fails (.splitErr "junk".toList) :=
  c5_split_error_on_no_match "junk".toList litParse (Or.inl rfl)

/-- Counterexample for C5 as stated: on the line `] "a> "b` both
patterns match (each exactly once), but the object-split match `] "`
starts at index 0 while the predicate-split match `> "` ends at index 7,
so the slice `raw[idxp[1]-1 : idxo[0]+1]` has its lower bound above its
upper bound and `ParseTriple` panics instead of returning an error. -/
theorem c5_counterexample_slice_crash :
    parseTriple "] \"a> \"b".toList litParse = GoRes.crash := by
  rfl

/-! ### Validity of serialized components, for the round-trip claim -/

/-- An identifier/payload character: not whitespace and none of the
delimiter characters of the three canonical text forms. -/
def plainChar (c : Char) : Bool :=
  !isUnicodeSpace c && c != '<' && c != '>' && c != '"' && c != '[' &&
    c != ']' && c != '/' && c != '@' && c != '^' && c != ':'

/-- A valid node: type and id over plain characters. -/
def Node.wf (n : Node) : Bool :=
  n.typ.all plainChar && n.id.all plainChar

/-- A valid predicate: id (and anchor text, nonempty) over plain
characters. -/
def Pred.wf : Pred → Bool
  | .immutable id => id.all plainChar
  | .temporal id ta => id.all plainChar && ta.all plainChar && !ta.isEmpty

/-- A valid literal: text and (nonempty) type name over plain
characters. -/
def Lit.wf (l : Lit) : Bool :=
  l.text.all plainChar && l.ty.all plainChar && !l.ty.isEmpty

/-- A well-formed object whose boxed component is valid. -/
def objectWfFull (o : Object) : Bool :=
  match o.n, o.p, o.l with
  | some n, none, none => n.wf
  | none, some p, none => p.wf
  | none, none, some l => l.wf
  | _, _, _ => false

/-- A valid triple: every component valid, object boxing exactly one
variant. -/
def Triple.wf (t : Triple) : Bool :=
  t.s.wf && t.p.wf && objectWfFull t.o

/-- The delimiter facts carried by a plain character. -/
theorem plainChar_facts (c : Char) (h : plainChar c = true) :
    isUnicodeSpace c = false ∧ c ≠ '<' ∧ c ≠ '>' ∧ c ≠ '"' ∧ c ≠ '[' ∧
      c ≠ ']' ∧ c ≠ '/' ∧ c ≠ '@' ∧ c ≠ '^' ∧ c ≠ ':' := by
  simp only [plainChar, Bool.and_eq_true, bne_iff_ne, Bool.not_eq_true'] at h
  obtain ⟨⟨⟨⟨⟨⟨⟨⟨⟨h1, h2⟩, h3⟩, h4⟩, h5⟩, h6⟩, h7⟩, h8⟩, h9⟩, h10⟩ := h
  exact ⟨h1, h2, h3, h4, h5, h6, h7, h8, h9, h10⟩

/-- `breakAt` at the first occurrence of the separator. -/
theorem breakAt_append (c : Char) (xs ys : List Char)
    (h : ∀ x ∈ xs, x ≠ c) : breakAt c (xs ++ c :: ys) = (xs, c :: ys) := by
  induction xs with
  | nil => simp [breakAt]
  | cons a xs ih =>
    have ha : a ≠ c := h a (by simp)
    have ih2 := ih (fun x hx => h x (by simp [hx]))
    simp only [breakAt, Prod.mk.injEq] at ih2
    simp only [List.cons_append, breakAt, List.takeWhile_cons,
      List.dropWhile_cons, Prod.mk.injEq]
    simp [ha, ih2.1, ih2.2]

/-- Parsing the canonical text of a valid node returns the node. -/
theorem nodeParse_string (n : Node) (h : n.wf = true) :
    nodeParse n.string = .ok n := by
  obtain ⟨ty, id⟩ := n
  simp only [Node.wf, Bool.and_eq_true, List.all_eq_true] at h
  have hty : ∀ x ∈ ty, x ≠ '<' :=
    fun x hx => (plainChar_facts x (h.1 x hx)).2.1
  have hid : ∀ x ∈ id, x ≠ '>' :=
    fun x hx => (plainChar_facts x (h.2 x hx)).2.2.1
  have e1 : breakAt '<' (ty ++ '<' :: (id ++ ['>'])) =
      (ty, '<' :: (id ++ ['>'])) := breakAt_append '<' ty _ hty
  have e2 : breakAt '>' (id ++ '>' :: []) = (id, '>' :: []) :=
    breakAt_append '>' id [] hid
  simp only [Node.string, nodeParse, e1]
  rw [e2]
  rfl

/-- Parsing the canonical text of a valid predicate returns the
predicate. -/
theorem predParse_string (p : Pred) (h : p.wf = true) :
    predParse p.string = .ok p := by
  cases p with
  | immutable id =>
    simp only [Pred.wf, List.all_eq_true] at h
    have hid : ∀ x ∈ id, x ≠ '"' :=
      fun x hx => (plainChar_facts x (h x hx)).2.2.2.1
    have e1 : breakAt '"' (id ++ '"' :: ['@', '[', ']']) =
        (id, '"' :: ['@', '[', ']']) := breakAt_append '"' id _ hid
    simp only [Pred.string, predParse, e1]
    rfl
  | temporal id ta =>
    simp only [Pred.wf, Bool.and_eq_true, List.all_eq_true] at h
    have hid : ∀ x ∈ id, x ≠ '"' :=
      fun x hx => (plainChar_facts x (h.1.1 x hx)).2.2.2.1
    have hta : ∀ x ∈ ta, x ≠ ']' :=
      fun x hx => (plainChar_facts x (h.1.2 x hx)).2.2.2.2.2.1
    have htane : ta ≠ [] := by simpa using h.2
    have e1 : breakAt '"' (id ++ '"' :: ('@' :: '[' :: (ta ++ [']']))) =
        (id, '"' :: ('@' :: '[' :: (ta ++ [']']))) :=
      breakAt_append '"' id _ hid
    have e2 : breakAt ']' (ta ++ ']' :: []) = (ta, ']' :: []) :=
      breakAt_append ']' ta [] hta
    simp only [Pred.string, predParse, List.append_assoc, List.cons_append,
      List.nil_append, e1, e2]
    simp [htane]

/-- Parsing the canonical text of a valid literal with the default
builder returns the literal. -/
theorem litParse_string (l : Lit) (h : l.wf = true) :
    litParse l.string = .ok l := by
  obtain ⟨ty, tx⟩ := l
  simp only [Lit.wf, Bool.and_eq_true, List.all_eq_true] at h
  have htx : ∀ x ∈ tx, x ≠ '"' :=
    fun x hx => (plainChar_facts x (h.1.1 x hx)).2.2.2.1
  have htyne : ty ≠ [] := by simpa using h.2
  have e1 : breakAt '"'
      (tx ++ '"' :: ('^' :: '^' :: 't' :: 'y' :: 'p' :: 'e' :: ':' :: ty)) =
      (tx, '"' :: ('^' :: '^' :: 't' :: 'y' :: 'p' :: 'e' :: ':' :: ty)) :=
    breakAt_append '"' tx _ htx
  simp only [Lit.string, litParse, List.append_assoc, List.cons_append,
    List.nil_append, e1]
  simp [htyne]

/-- `node.Parse` rejects the canonical text of a predicate (it starts
with a quote, not a slash). -/
theorem nodeParse_predString (p : Pred) :
    nodeParse p.string = .error (.nodeErr p.string) := by
  cases p <;> rfl

/-- `node.Parse` rejects the canonical text of a literal. -/
theorem nodeParse_litString (l : Lit) :
    nodeParse l.string = .error (.nodeErr l.string) := by
  obtain ⟨ty, tx⟩ := l
  rfl

/-- The default literal builder rejects the canonical text of a valid
predicate: the character after the closing quote is `@`, not `^`. -/
theorem litParse_predString (p : Pred) (h : p.wf = true) :
    litParse p.string = .error (.litErr p.string) := by
  cases p with
  | immutable id =>
    simp only [Pred.wf, List.all_eq_true] at h
    have hid : ∀ x ∈ id, x ≠ '"' :=
      fun x hx => (plainChar_facts x (h x hx)).2.2.2.1
    have e1 : breakAt '"' (id ++ '"' :: ['@', '[', ']']) =
        (id, '"' :: ['@', '[', ']']) := breakAt_append '"' id _ hid
    simp only [Pred.string, litParse, e1]
    rfl
  | temporal id ta =>
    simp only [Pred.wf, Bool.and_eq_true, List.all_eq_true] at h
    have hid : ∀ x ∈ id, x ≠ '"' :=
      fun x hx => (plainChar_facts x (h.1.1 x hx)).2.2.2.1
    have e1 : breakAt '"' (id ++ '"' :: ('@' :: '[' :: (ta ++ [']']))) =
        (id, '"' :: ('@' :: '[' :: (ta ++ [']']))) :=
      breakAt_append '"' id _ hid
    simp only [Pred.string, litParse, List.append_assoc, List.cons_append,
      List.nil_append, e1]
    rfl

/-- `ParseObject` with the default builder inverts `Object.String` on
every well-formed valid object. -/
theorem parseObject_string (o : Object) (h : objectWfFull o = true) :
    parseObject o.string litParse = .ok o := by
  obtain ⟨n, p, l⟩ := o
  cases n <;> cases p <;> cases l <;> simp only [objectWfFull] at h <;>
    try exact absurd h Bool.false_ne_true
  case some.none.none n =>
    have h1 : nodeParse (Object.string ⟨some n, none, none⟩) = .ok n := by
      rw [show Object.string ⟨some n, none, none⟩ = n.string from rfl]
      exact nodeParse_string n h
    simp [parseObject, h1, newNodeObject]
  case none.some.none p =>
    simp [parseObject, Object.string, nodeParse_predString p,
      litParse_predString p h, predParse_string p h, newPredicateObject]
  case none.none.some l =>
    simp [parseObject, Object.string, nodeParse_litString l,
      litParse_string l h, newLiteralObject]

/-! ### Locating the split points of a serialized triple -/

/-- `matchP` fires only at a `>`. -/
theorem matchP_none (c : Char) (rest : List Char) (h : c ≠ '>') :
    matchP (c :: rest) = none := by
  simp [matchP, h]

/-- `matchO` fires only at a `]`. -/
theorem matchO_none (c : Char) (rest : List Char) (h : c ≠ ']') :
    matchO (c :: rest) = none := by
  simp [matchO, h]

/-- `matchP` at the subject/predicate boundary of a serialized triple. -/
theorem matchP_hit (Y : List Char) :
    matchP ('>' :: '\t' :: '"' :: Y) = some 3 := by
  simp [matchP, List.takeWhile_cons, List.dropWhile_cons, isRegexSpace]

/-- `matchO` at the boundary before a node object. -/
theorem matchO_hit_slash (Y : List Char) :
    matchO (']' :: '\t' :: '/' :: Y) = some 3 := by
  simp [matchO, List.takeWhile_cons, List.dropWhile_cons, isRegexSpace]

/-- `matchO` at the boundary before a literal or predicate object. -/
theorem matchO_hit_quote (Y : List Char) :
    matchO (']' :: '\t' :: '"' :: Y) = some 3 := by
  simp [matchO, List.takeWhile_cons, List.dropWhile_cons, isRegexSpace]

/-- The scan skips a prefix on which the matcher never fires. -/
theorem scanFindAux_skip (m : List Char → Option Nat) (B : List Char) :
    ∀ A : List Char, (∀ c ∈ A, ∀ rest, m (c :: rest) = none) →
      ∀ i, scanFindAux m i (A ++ B) = scanFindAux m (i + A.length) B := by
  intro A
  induction A with
  | nil => intro _ i; simp
  | cons c A ih =>
    intro hA i
    have h1 : m (c :: (A ++ B)) = none := hA c (by simp) _
    show scanFindAux m i (c :: (A ++ B)) = _
    rw [scanFindAux, h1]
    show scanFindAux m (i + 1) (A ++ B) = _
    rw [ih (fun x hx rest => hA x (by simp [hx]) rest) (i + 1)]
    congr 1
    simp only [List.length_cons]
    omega

/-- The scan stops at a position where the matcher fires. -/
theorem scanFindAux_hit (m : List Char → Option Nat) (i k : Nat) (c : Char)
    (rest : List Char) (h : m (c :: rest) = some k) :
    scanFindAux m i (c :: rest) = some (i, i + k) := by
  simp [scanFindAux, h]

/-- The leftmost match of a matcher that first fires right after `A`. -/
theorem scanFind_append (m : List Char → Option Nat) (A : List Char)
    (c : Char) (rest : List Char) (k : Nat)
    (hA : ∀ x ∈ A, ∀ r, m (x :: r) = none) (hit : m (c :: rest) = some k) :
    scanFind m (A ++ c :: rest) = some (A.length, A.length + k) := by
  unfold scanFind
  rw [scanFindAux_skip m (c :: rest) A hA 0]
  simpa using scanFindAux_hit m A.length k c rest hit

/-- A valid node's text is a `>`-free and `]`-free prefix followed by the
closing `>`. -/
theorem node_string_shape (n : Node) (h : n.wf = true) :
    ∃ mid, n.string = ('/' :: mid) ++ ['>'] ∧
      ∀ c ∈ '/' :: mid, c ≠ '>' ∧ c ≠ ']' := by
  refine ⟨n.typ ++ '<' :: n.id, by simp [Node.string], ?_⟩
  intro c hc
  simp only [Node.wf, Bool.and_eq_true, List.all_eq_true] at h
  simp only [List.mem_cons, List.mem_append] at hc
  rcases hc with rfl | hty | rfl | hid
  · exact ⟨by decide, by decide⟩
  · have := plainChar_facts c (h.1 c hty)
    exact ⟨this.2.2.1, this.2.2.2.2.2.1⟩
  · exact ⟨by decide, by decide⟩
  · have := plainChar_facts c (h.2 c hid)
    exact ⟨this.2.2.1, this.2.2.2.2.2.1⟩

/-- A valid predicate's text is a `]`-free quoted prefix followed by the
closing `]`. -/
theorem pred_string_shape (p : Pred) (h : p.wf = true) :
    ∃ mid, p.string = ('"' :: mid) ++ [']'] ∧ ∀ c ∈ '"' :: mid, c ≠ ']' := by
  cases p with
  | immutable id =>
    refine ⟨id ++ ['"', '@', '['], by simp [Pred.string], ?_⟩
    intro c hc
    simp only [Pred.wf, List.all_eq_true] at h
    simp at hc
    rcases hc with rfl | hid | rfl | rfl | rfl
    · decide
    · exact (plainChar_facts c (h c hid)).2.2.2.2.2.1
    · decide
    · decide
    · decide
  | temporal id ta =>
    refine ⟨id ++ ['"', '@', '['] ++ ta, by simp [Pred.string], ?_⟩
    intro c hc
    simp only [Pred.wf, Bool.and_eq_true, List.all_eq_true] at h
    simp at hc
    rcases hc with rfl | hid | rfl | rfl | rfl | hta
    · decide
    · exact (plainChar_facts c (h.1.1 c hid)).2.2.2.2.2.1
    · decide
    · decide
    · decide
    · exact (plainChar_facts c (h.1.2 c hta)).2.2.2.2.2.1

/-- A well-formed valid object's text starts with `/` or `"` and ends in
a non-whitespace character. -/
theorem object_string_shape (o : Object) (h : objectWfFull o = true) :
    (∃ r, o.string = '/' :: r ∨ o.string = '"' :: r) ∧
      ∃ c r2, o.string.reverse = c :: r2 ∧ isUnicodeSpace c = false := by
  obtain ⟨n, p, l⟩ := o
  cases n <;> cases p <;> cases l <;> simp only [objectWfFull] at h <;>
    try exact absurd h Bool.false_ne_true
  case some.none.none n =>
    obtain ⟨ty, id⟩ := n
    have e : Object.string ⟨some ⟨ty, id⟩, none, none⟩ =
        ('/' :: (ty ++ '<' :: id)) ++ ['>'] := by
      simp [Object.string, Node.string]
    constructor
    · exact ⟨ty ++ '<' :: (id ++ ['>']), Or.inl rfl⟩
    · refine ⟨'>', ('/' :: (ty ++ '<' :: id)).reverse, ?_, by decide⟩
      rw [e, List.reverse_append]
      rfl
  case none.some.none p =>
    obtain ⟨mid, hs, _⟩ := pred_string_shape p h
    have e : Object.string ⟨none, some p, none⟩ = ('"' :: mid) ++ [']'] := by
      simpa [Object.string] using hs
    constructor
    · exact ⟨mid ++ [']'], Or.inr (by rw [e]; rfl)⟩
    · refine ⟨']', ('"' :: mid).reverse, ?_, by decide⟩
      rw [e, List.reverse_append]
      rfl
  case none.none.some l =>
    obtain ⟨ty, tx⟩ := l
    simp only [Lit.wf, Bool.and_eq_true, List.all_eq_true] at h
    have htyne : ty ≠ [] := by simpa using h.2
    rcases List.eq_nil_or_concat ty with rfl | ⟨L, b, rfl⟩
    · exact absurd rfl htyne
    simp only [List.concat_eq_append] at h ⊢
    have hb : plainChar b = true := h.1.2 b (by simp)
    have e : Object.string ⟨none, none, some ⟨L ++ [b], tx⟩⟩ =
        ('"' :: (tx ++ ['"', '^', '^', 't', 'y', 'p', 'e', ':'] ++ L)) ++ [b] := by
      simp [Object.string, Lit.string]
    refine ⟨⟨tx ++ ['"', '^', '^', 't', 'y', 'p', 'e', ':'] ++ (L ++ [b]),
        Or.inr ?_⟩,
      ⟨b, ('"' :: (tx ++ ['"', '^', '^', 't', 'y', 'p', 'e', ':'] ++ L)).reverse,
        ?_, (plainChar_facts b hb).1⟩⟩
    · simp [Object.string, Lit.string]
    · rw [e, List.reverse_append]
      rfl

/-- `TrimSpace` is the identity on text with non-space first and last
characters. -/
theorem trimSpace_eq_self (l : List Char)
    (hhead : ∃ c r, l = c :: r ∧ isUnicodeSpace c = false)
    (hlast : ∃ c r, l.reverse = c :: r ∧ isUnicodeSpace c = false) :
    trimSpace l = l := by
  obtain ⟨c1, r1, h1, hc1⟩ := hhead
  obtain ⟨c2, r2, h2, hc2⟩ := hlast
  have e1 : l.dropWhile isUnicodeSpace = l := by
    rw [h1, List.dropWhile_cons, hc1]
    simp
  have e2 : l.reverse.dropWhile isUnicodeSpace = l.reverse := by
    rw [h2, List.dropWhile_cons, hc2]
    simp
  unfold trimSpace
  rw [e1, e2, List.reverse_reverse]

/-- Go slicing of the prefix. -/
theorem goSlice_pre (A Z : List Char) : goSlice (A ++ Z) 0 A.length = some A := by
  unfold goSlice
  rw [if_pos]
  · simp [List.take_left]
  · simp

/-- Go slicing of a middle segment. -/
theorem goSlice_mid (A B Z : List Char) :
    goSlice (A ++ (B ++ Z)) A.length (A.length + B.length) = some B := by
  unfold goSlice
  rw [if_pos]
  · rw [List.drop_left]
    simp [List.take_left]
  · simp [List.length_append]

/-- Go slicing of the suffix. -/
theorem goSliceFrom_post (A Z : List Char) :
    goSliceFrom (A ++ Z) A.length = some Z := by
  unfold goSliceFrom
  rw [if_pos]
  · rw [List.drop_left]
  · simp

/-- C3: parsing the serialized form of a valid triple with the default
literal builder round-trips to the same triple. -/
theorem c3_roundtrip (t : Triple) (h : t.wf = true) :
    parseTriple t.string litParse = GoRes.ok t := by
  have h' := h
  simp only [Triple.wf, Bool.and_eq_true] at h'
  obtain ⟨⟨hs, hp⟩, ho⟩ := h'
  obtain ⟨smid, hS, hSmem⟩ := node_string_shape t.s hs
  obtain ⟨pmid, hP, hPmem⟩ := pred_string_shape t.p hp
  obtain ⟨⟨orest, hOhead⟩, hOlast⟩ := object_string_shape t.o ho
  -- the trimmed line is the line itself
  have htrim : trimSpace t.string = t.string := by
    apply trimSpace_eq_self
    · refine ⟨'/', smid ++ '>' :: '\t' ::
        (t.p.string ++ '\t' :: t.o.string), ?_, by decide⟩
      simp [Triple.string, hS, List.append_assoc]
    · obtain ⟨c, r2, hr, hc⟩ := hOlast
      refine ⟨c, r2 ++ (t.s.string ++ '\t' :: t.p.string ++ ['\t']).reverse,
        ?_, hc⟩
      rw [show t.string =
          (t.s.string ++ '\t' :: t.p.string ++ ['\t']) ++ t.o.string by
        simp [Triple.string, List.append_assoc], List.reverse_append, hr]
      rfl
  -- the predicate split point
  have hscanP : scanFind matchP t.string =
      some (('/' :: smid).length, ('/' :: smid).length + 3) := by
    have hB : matchP ('>' :: '\t' :: (t.p.string ++ '\t' :: t.o.string)) =
        some 3 := by
      rw [show t.p.string ++ '\t' :: t.o.string =
          '"' :: (pmid ++ ']' :: '\t' :: t.o.string) by
        rw [hP]; simp]
      exact matchP_hit _
    rw [show t.string =
        ('/' :: smid) ++ '>' :: '\t' :: (t.p.string ++ '\t' :: t.o.string) by
      simp [Triple.string, hS, List.append_assoc]]
    exact scanFind_append matchP _ '>' _ 3
      (fun x hx r => matchP_none x r ((hSmem x hx).1)) hB
  -- the object split point
  have hA2 : ∀ x ∈ t.s.string ++ '\t' :: '"' :: pmid, x ≠ ']' := by
    intro x hx
    simp only [List.mem_append, List.mem_cons] at hx
    rcases hx with hxS | rfl | rfl | hx2
    · rw [hS] at hxS
      simp at hxS
      rcases hxS with rfl | hxS | rfl
      · decide
      · exact (hSmem x (by simp [hxS])).2
      · decide
    · decide
    · decide
    · exact hPmem x (by simp [hx2])
  have hBO : matchO (']' :: '\t' :: t.o.string) = some 3 := by
    rcases hOhead with hO | hO <;> rw [hO]
    · exact matchO_hit_slash _
    · exact matchO_hit_quote _
  have hscanO : scanFind matchO t.string =
      some ((t.s.string ++ '\t' :: '"' :: pmid).length,
            (t.s.string ++ '\t' :: '"' :: pmid).length + 3) := by
    rw [show t.string = (t.s.string ++ '\t' :: '"' :: pmid) ++
        ']' :: '\t' :: t.o.string by
      simp [Triple.string, hP, List.append_assoc]]
    exact scanFind_append matchO _ ']' _ 3
      (fun x hx r => matchO_none x r (hA2 x hx)) hBO
  -- lengths
  have lenS : t.s.string.length = ('/' :: smid).length + 1 := by
    rw [hS]; simp
  have lenP : t.p.string.length = pmid.length + 2 := by
    rw [hP]; simp
  -- the three slices
  have hss : goSlice t.string 0 (('/' :: smid).length + 1) =
      some t.s.string := by
    rw [← lenS,
      show t.string = t.s.string ++
        ('\t' :: (t.p.string ++ '\t' :: t.o.string)) from rfl]
    exact goSlice_pre _ _
  have hsp : goSlice t.string (('/' :: smid).length + 3 - 1)
      ((t.s.string ++ '\t' :: '"' :: pmid).length + 1) = some t.p.string := by
    have i1 : ('/' :: smid).length + 3 - 1 =
        (t.s.string ++ ['\t']).length := by
      simp [List.length_append, lenS]
    have i2 : (t.s.string ++ '\t' :: '"' :: pmid).length + 1 =
        (t.s.string ++ ['\t']).length + t.p.string.length := by
      simp [List.length_append, lenP]
      omega
    rw [i1, i2, show t.string =
        (t.s.string ++ ['\t']) ++ (t.p.string ++ '\t' :: t.o.string) by
      simp [Triple.string, List.append_assoc]]
    exact goSlice_mid _ _ _
  have hso : goSliceFrom t.string
      ((t.s.string ++ '\t' :: '"' :: pmid).length + 3 - 1) =
      some t.o.string := by
    have i3 : (t.s.string ++ '\t' :: '"' :: pmid).length + 3 - 1 =
        (t.s.string ++ '\t' :: t.p.string ++ ['\t']).length := by
      simp [List.length_append, lenP]
      omega
    rw [i3, show t.string =
        (t.s.string ++ '\t' :: t.p.string ++ ['\t']) ++ t.o.string by
      simp [Triple.string, List.append_assoc]]
    exact goSliceFrom_post _ _
  -- assemble
  simp only [parseTriple, htrim, hscanP, hscanO, hss, hsp, hso,
    nodeParse_string t.s hs, predParse_string t.p hp,
    parseObject_string t.o ho, newTriple]

/-- Witness for C3 at the concrete triple `/u<a> "knows"@[] /u<b>`. -/
theorem c3_roundtrip_witness :
    parseTriple (Triple.mk exNodeA exPredI (newNodeObject exNodeB)).string
        litParse =
      GoRes.ok (Triple.mk exNodeA exPredI (newNodeObject exNodeB)) :=
  c3_roundtrip (Triple.mk exNodeA exPredI (newNodeObject exNodeB)) (by decide)

end Badwolf
